import Mathlib

/-!
# Verification of the All-in EV Adjuster core (`ev.py`)

Shallow embedding of the Monte Carlo equity estimator, the minimal hand
comparator, the per-hand EV attribution and the session aggregation of
`ev.py`.  Python floats are modelled as `ℚ` (every arithmetic step the
claims mention is exact there), Python exceptions as `none` results, and
the process-global `random` module as an explicit deterministic stream
state (`RState`) threaded through the functions: `random.seed` resets the
state to a value determined by the seed, and each random index consumed
advances the stream.  The statistical quality of the generator is
irrelevant to every claim, so the stream is a simple counter.
-/

set_option maxRecDepth 4000

namespace AllinEV

/-- Abstract state of the process-global random generator. -/
abbrev RState := Nat

/-- `random.seed(s)`: the state becomes a function of the seed alone. -/
def seedState (s : Int) : RState := 2 * s.natAbs + (if s < 0 then 1 else 0)

/-- `if seed: random.seed(seed)` — Python truthiness: `None` and `0` both
skip the seeding. -/
def applySeed (seed : Option Int) (g : RState) : RState :=
  match seed with
  | none => g
  | some s => if s = 0 then g else seedState s

/-- `RANKS = "23456789TJQKA"` -/
def RANKS : String := "23456789TJQKA"

/-- `SUITS = "shdc"` -/
def SUITS : String := "shdc"

/-- `deck()`: all 52 rank×suit two-character tokens, rank-major order. -/
def deck : List String :=
  RANKS.toList.flatMap (fun r => SUITS.toList.map (fun s => String.mk [r, s]))

/-- `RANKS.index(c[0])`: `none` models the `IndexError` on an empty token
and the `ValueError` on a character outside `RANKS`. -/
def rankIndexOf (c : String) : Option Nat :=
  match c.toList.head? with
  | none => none
  | some ch => if ch ∈ RANKS.toList then some (RANKS.toList.indexOf ch) else none

/-- `[RANKS.index(c[0]) for c in cards]` — the comprehension raises on the
first invalid token. -/
def ranksOf : List String → Option (List Nat)
  | [] => some []
  | c :: cs =>
    match rankIndexOf c, ranksOf cs with
    | some r, some rs => some (r :: rs)
    | _, _ => none

/-- `hand_strength(cards)`: `max` of the rank indices; `max` of an empty
list raises, modelled by `none`. -/
def hand_strength (cards : List String) : Option Nat :=
  match ranksOf cards with
  | none => none
  | some [] => none
  | some (r :: rs) => some (rs.foldl max r)

/-- Strength with the (unreachable under valid input) error default `0`;
used only to phrase win/tie predicates of proved theorems. -/
def strengthD (cards : List String) : Nat := (hand_strength cards).getD 0

/-- One draw of `random.sample`'s selection loop: pick an index from the
random stream, remove the chosen card from the population. -/
def drawLoop : List String → Nat → RState → List String × RState
  | _, 0, g => ([], g)
  | l, k + 1, g =>
    let c := l.getD (g % l.length) ""
    let (rest, g') := drawLoop (l.erase c) k (g + 1)
    (c :: rest, g')

/-- `random.sample(l, k)`: raises `ValueError` (`none`) unless
`0 ≤ k ≤ len(l)`, otherwise returns `k` distinct elements of `l`.  The
bound check happens before any randomness is consumed. -/
def pySample (l : List String) (k : Int) (g : RState) :
    Option (List String) × RState :=
  if k < 0 ∨ (l.length : Int) < k then (none, g)
  else
    let (s, g') := drawLoop l k.toNat g
    (some s, g')

/-- The simulation loop of `monte_carlo_equity` (lines 153–165): besides
the win/tie tallies it counts the `hand_strength` invocations, so that
the cost claims of the spec can be settled.  A `none` result models an
exception escaping the loop body. -/
def mcLoop (hero villain board deckLeft : List String) :
    Nat → RState → Nat → Nat → Nat → Option (Nat × Nat) × Nat × RState
  | 0, g, wins, ties, calls => (some (wins, ties), calls, g)
  | n + 1, g, wins, ties, calls =>
    match pySample deckLeft (5 - (board.length : Int)) g with
    | (none, g') => (none, calls, g')
    | (some sample, g') =>
      let full_board := board ++ sample
      match hand_strength (hero ++ full_board) with
      | none => (none, calls + 1, g')
      | some hero_best =>
        match hand_strength (villain ++ full_board) with
        | none => (none, calls + 2, g')
        | some villain_best =>
          if hero_best > villain_best then
            mcLoop hero villain board deckLeft n g' (wins + 1) ties (calls + 2)
          else if hero_best = villain_best then
            mcLoop hero villain board deckLeft n g' wins (ties + 1) (calls + 2)
          else
            mcLoop hero villain board deckLeft n g' wins ties (calls + 2)

/-- `monte_carlo_equity(hero, villain, board, mc_iters, seed)` run against
an incoming generator state.  Returns the possibly-failing equity value,
the number of `hand_strength` calls performed, and the outgoing state.
The final division raises `ZeroDivisionError` (`none`) when
`mc_iters = 0`. -/
def monte_carlo_equity (hero_cards villain_cards board : List String)
    (mc_iters : Nat) (seed : Option Int) (g0 : RState) :
    Option ℚ × Nat × RState :=
  let g1 := applySeed seed g0
  let dead := hero_cards ++ villain_cards ++ board
  let deck_left := deck.filter (fun c => decide (c ∉ dead))
  match mcLoop hero_cards villain_cards board deck_left mc_iters g1 0 0 0 with
  | (none, calls, g') => (none, calls, g')
  | (some (wins, ties), calls, g') =>
    if mc_iters = 0 then (none, calls, g')
    else (some (((wins : ℚ) + (ties : ℚ) * (1 / 2)) / (mc_iters : ℚ)), calls, g')

/-- `deck_left` as computed inside `monte_carlo_equity`. -/
def deckLeft (hero_cards villain_cards board : List String) : List String :=
  deck.filter (fun c => decide (c ∉ hero_cards ++ villain_cards ++ board))

/-- Rank index of a token with the (unreachable under valid input) error
default `0`; used to phrase the statements about `hand_strength`. -/
def ridx (c : String) : Nat := (rankIndexOf c).getD 0

/-- The rank character of a token (the only part `hand_strength` reads). -/
def rankChar (c : String) : Option Char := c.toList.head?

/-- The highest rank index appearing in a card collection. -/
def highestRank (cards : List String) : Nat := (cards.map ridx).foldl max 0

/-- Number of sampled completions the hero wins (`hero_best > villain_best`). -/
def winCount (hero villain board : List String)
    (samples : List (List String)) : Nat :=
  samples.countP (fun s =>
    decide (strengthD (villain ++ (board ++ s)) < strengthD (hero ++ (board ++ s))))

/-- Number of sampled completions that tie (`hero_best == villain_best`). -/
def tieCount (hero villain board : List String)
    (samples : List (List String)) : Nat :=
  samples.countP (fun s =>
    decide (strengthD (hero ++ (board ++ s)) = strengthD (villain ++ (board ++ s))))

/-- `Player(name, cards)` of `ev.py`. -/
structure Player where
  name : String
  cards : List String
deriving DecidableEq

/-- `Hand` of `ev.py`.  `players` and `results` are the two dicts keyed by
player name (insertion-ordered, as in Python); the `datetime` stamp is an
opaque token carried through unchanged. -/
structure Hand where
  hand_id : String
  date : String
  hero : String
  players : List (String × Player)
  board : List String
  rake : ℚ
  total_pot : ℚ
  results : List (String × ℚ)
deriving DecidableEq

/-- The configuration fields of `args` that `process_hand` reads. -/
structure Args where
  mc_iters : Nat
  seed : Option Int
  ev_before_rake : Bool
deriving DecidableEq

/-- The report dict built by `process_hand` (lines 197–206). -/
structure Row where
  hand_id : String
  date : String
  hero : String
  equity : ℚ
  eligible_pot : ℚ
  hero_invested : ℚ
  ev_contrib : ℚ
  hero_net : ℚ
deriving DecidableEq

/-- `process_hand(hand, args)` (lines 174–206).  Result `some none` is
Python's `return None` (hand skipped), `none` an exception escaping
(only `monte_carlo_equity` can raise here).  The villain is the first
player in dict order whose name differs from the hero's. -/
def process_hand (hand : Hand) (args : Args) (g : RState) :
    Option (Option Row) × RState :=
  match List.lookup hand.hero hand.players,
        (hand.players.find? (fun kv => kv.1 != hand.hero)).map Prod.snd with
  | some hero, some villain =>
    if hero.cards.isEmpty || villain.cards.isEmpty then (some none, g)
    else
      match monte_carlo_equity hero.cards villain.cards hand.board
              args.mc_iters args.seed g with
      | (none, _, g') => (none, g')
      | (some equity, _, g') =>
        let eligible_pot := hand.total_pot -
          (if args.ev_before_rake then 0 else hand.rake)
        let hero_invested := eligible_pot / 2
        let ev_contrib := equity * eligible_pot - hero_invested
        let hero_net := (List.lookup hand.hero hand.results).getD 0
        (some (some { hand_id := hand.hand_id, date := hand.date,
                      hero := hand.hero, equity := equity,
                      eligible_pot := eligible_pot,
                      hero_invested := hero_invested,
                      ev_contrib := ev_contrib, hero_net := hero_net }), g')
  | _, _ => (some none, g)

/-- The qualification test of lines 180–188: hero present, some non-hero
player present, and both hole-card lists non-empty. -/
def qualifies (hand : Hand) : Bool :=
  match List.lookup hand.hero hand.players,
        (hand.players.find? (fun kv => kv.1 != hand.hero)).map Prod.snd with
  | some hero, some villain => !hero.cards.isEmpty && !villain.cards.isEmpty
  | _, _ => false

/-- The row-collection loop of `main` (lines 262–266): rows of qualifying
hands in input order; an exception on any hand aborts the whole run
(`none`). -/
def sessionRows : List Hand → Args → RState → Option (List Row) × RState
  | [], _, g => (some [], g)
  | h :: hs, args, g =>
    match process_hand h args g with
    | (none, g') => (none, g')
    | (some r?, g') =>
      match sessionRows hs args g' with
      | (none, g'') => (none, g'')
      | (some rows, g'') =>
        match r? with
        | some r => (some (r :: rows), g'')
        | none => (some rows, g'')

/-- `net_total = sum(r["hero_net"] for r in rows)` (line 273). -/
def net_total (rows : List Row) : ℚ :=
  rows.foldl (fun acc r => acc + r.hero_net) 0

/-- `ev_total = sum(r["ev_contrib"] for r in rows)` (line 274). -/
def ev_total (rows : List Row) : ℚ :=
  rows.foldl (fun acc r => acc + r.ev_contrib) 0

/-- `Diff` as printed on line 275: `ev_total - net_total`. -/
def diff_total (rows : List Row) : ℚ := ev_total rows - net_total rows

/-- Following the spec's words for the Session Aggregator: the ordered
sequence of EV rows of exactly the qualifying hands, skipping the
non-qualifying ones.  Used as the specification side of the refinement
for the aggregation claim. -/
def specSessionRows : List Hand → Args → RState → List Row
  | [], _, _ => []
  | h :: hs, args, g =>
    match process_hand h args g with
    | (some (some r), g') => r :: specSessionRows hs args g'
    | (_, g') => specSessionRows hs args g'

/-! ## Lemmas about the hand comparator -/

theorem foldl_max_le_iff (rs : List Nat) :
    ∀ r x : Nat, rs.foldl max r ≤ x ↔ r ≤ x ∧ ∀ y ∈ rs, y ≤ x := by
  induction rs with
  | nil => intro r x; simp
  | cons a l ih =>
    intro r x
    simp only [List.foldl_cons, ih, Nat.max_le, List.mem_cons]
    constructor
    · rintro ⟨⟨h1, h2⟩, h3⟩
      refine ⟨h1, fun y hy => ?_⟩
      rcases hy with rfl | hy
      · exact h2
      · exact h3 y hy
    · rintro ⟨h1, h2⟩
      exact ⟨⟨h1, h2 a (Or.inl rfl)⟩, fun y hy => h2 y (Or.inr hy)⟩

theorem foldl_max_mem (rs : List Nat) :
    ∀ r : Nat, rs.foldl max r = r ∨ rs.foldl max r ∈ rs := by
  induction rs with
  | nil => intro r; exact Or.inl rfl
  | cons a l ih =>
    intro r
    rcases ih (max r a) with h | h
    · rcases max_choice r a with hm | hm
      · exact Or.inl (by rw [List.foldl_cons, h, hm])
      · exact Or.inr (by rw [List.foldl_cons, h, hm]; exact List.mem_cons_self a l)
    · exact Or.inr (List.mem_cons_of_mem a h)

theorem ranksOf_eq_map (cards : List String)
    (h : ∀ c ∈ cards, (rankIndexOf c).isSome) :
    ranksOf cards = some (cards.map ridx) := by
  induction cards with
  | nil => rfl
  | cons c cs ih =>
    obtain ⟨r, hr⟩ := Option.isSome_iff_exists.mp (h c (List.mem_cons_self c cs))
    have hcs := ih (fun x hx => h x (List.mem_cons_of_mem c hx))
    simp [ranksOf, hr, hcs, ridx]

theorem hand_strength_valid (cards : List String)
    (hne : cards ≠ []) (h : ∀ c ∈ cards, (rankIndexOf c).isSome) :
    hand_strength cards = some (highestRank cards) := by
  rcases cards with _ | ⟨c, cs⟩
  · exact absurd rfl hne
  · have hm := ranksOf_eq_map (c :: cs) h
    simp only [List.map_cons] at hm
    simp only [hand_strength, hm, highestRank, List.map_cons, List.foldl_cons,
      Nat.zero_max]

theorem highestRank_is_max (cards : List String) (hne : cards ≠ []) :
    (∀ c ∈ cards, ridx c ≤ highestRank cards) ∧
      ∃ c ∈ cards, ridx c = highestRank cards := by
  rcases cards with _ | ⟨c, cs⟩
  · exact absurd rfl hne
  · have hfold : highestRank (c :: cs) = (cs.map ridx).foldl max (ridx c) := by
      simp [highestRank, Nat.zero_max]
    constructor
    · intro c' hc'
      have := (foldl_max_le_iff (cs.map ridx) (ridx c)
        ((cs.map ridx).foldl max (ridx c))).mp le_rfl
      rcases List.mem_cons.mp hc' with rfl | hc'
      · rw [hfold]; exact this.1
      · rw [hfold]
        exact this.2 (ridx c') (List.mem_map_of_mem ridx hc')
    · rcases foldl_max_mem (cs.map ridx) (ridx c) with h | h
      · exact ⟨c, List.mem_cons_self c cs, by rw [hfold, h]⟩
      · obtain ⟨c', hc', hr⟩ := List.mem_map.mp h
        exact ⟨c', List.mem_cons_of_mem c hc', by rw [hfold, hr]⟩

theorem highestRank_perm {cards p : List String} (hp : cards.Perm p) :
    highestRank cards = highestRank p := by
  by_cases hne : cards = []
  · subst hne
    rw [hp.symm.eq_nil]
  · have hne2 : p ≠ [] := fun h => hne (by rw [h] at hp; exact hp.eq_nil)
    obtain ⟨ub1, c1, hc1, hm1⟩ := highestRank_is_max cards hne
    obtain ⟨ub2, c2, hc2, hm2⟩ := highestRank_is_max p hne2
    apply le_antisymm
    · calc highestRank cards = ridx c1 := hm1.symm
        _ ≤ highestRank p := ub2 c1 (hp.subset hc1)
    · calc highestRank p = ridx c2 := hm2.symm
        _ ≤ highestRank cards := ub1 c2 (hp.symm.subset hc2)

theorem rankIndexOf_congr {a b : String} (h : rankChar a = rankChar b) :
    rankIndexOf a = rankIndexOf b := by
  unfold rankChar at h
  unfold rankIndexOf
  rw [h]

theorem ranksOf_congr : ∀ xs ys : List String,
    xs.map rankChar = ys.map rankChar → ranksOf xs = ranksOf ys := by
  intro xs
  induction xs with
  | nil =>
    intro ys h
    rcases ys with _ | ⟨y, ys⟩
    · rfl
    · simp at h
  | cons x xs ih =>
    intro ys h
    rcases ys with _ | ⟨y, ys⟩
    · simp at h
    · simp only [List.map_cons, List.cons.injEq] at h
      rw [ranksOf, ranksOf, rankIndexOf_congr h.1, ih ys h.2]

/-- C2: on a non-empty list of valid card tokens `hand_strength` is the
rank index of the highest-ranked card (`2 ↦ 0`, …, `A ↦ 12`); it is
determined by the rank characters alone (suits ignored), is invariant
under permutations of the input, and two collections compare equal iff
their highest ranks are equal. -/
theorem hand_strength_spec (cards cards' : List String)
    (hne : cards ≠ []) (hval : ∀ c ∈ cards, (rankIndexOf c).isSome)
    (hne' : cards' ≠ []) (hval' : ∀ c ∈ cards', (rankIndexOf c).isSome) :
    hand_strength cards = some (highestRank cards) ∧
    (∀ c ∈ cards, ridx c ≤ highestRank cards) ∧
    (∃ c ∈ cards, ridx c = highestRank cards) ∧
    rankIndexOf "2h" = some 0 ∧ rankIndexOf "Ah" = some 12 ∧
    (∀ p : List String, cards.Perm p → hand_strength p = hand_strength cards) ∧
    (∀ other : List String, cards.map rankChar = other.map rankChar →
      hand_strength other = hand_strength cards) ∧
    (hand_strength cards = hand_strength cards' ↔
      highestRank cards = highestRank cards') := by
  obtain ⟨hub, hmem⟩ := highestRank_is_max cards hne
  refine ⟨hand_strength_valid cards hne hval, hub, hmem, by decide, by decide,
    ?_, ?_, ?_⟩
  · intro p hp
    have hpne : p ≠ [] := fun h => hne (by rw [h] at hp; exact hp.eq_nil)
    have hpval : ∀ c ∈ p, (rankIndexOf c).isSome :=
      fun c hc => hval c (hp.symm.subset hc)
    rw [hand_strength_valid p hpne hpval, hand_strength_valid cards hne hval,
      highestRank_perm hp]
  · intro other hother
    unfold hand_strength
    rw [ranksOf_congr cards other hother]
  · rw [hand_strength_valid cards hne hval, hand_strength_valid cards' hne' hval']
    exact ⟨fun h => Option.some.inj h, fun h => by rw [h]⟩

/-- Closed instance of `hand_strength_spec` at concrete inputs. -/
theorem hand_strength_spec_witness :
    hand_strength ["Ah", "Kd"] = some (highestRank ["Ah", "Kd"]) ∧
    (∀ c ∈ ["Ah", "Kd"], ridx c ≤ highestRank ["Ah", "Kd"]) ∧
    (∃ c ∈ ["Ah", "Kd"], ridx c = highestRank ["Ah", "Kd"]) ∧
    rankIndexOf "2h" = some 0 ∧ rankIndexOf "Ah" = some 12 ∧
    (∀ p : List String, List.Perm ["Ah", "Kd"] p →
      hand_strength p = hand_strength ["Ah", "Kd"]) ∧
    (∀ other : List String, List.map rankChar ["Ah", "Kd"] = other.map rankChar →
      hand_strength other = hand_strength ["Ah", "Kd"]) ∧
    (hand_strength ["Ah", "Kd"] = hand_strength ["2s"] ↔
      highestRank ["Ah", "Kd"] = highestRank ["2s"]) :=
  hand_strength_spec ["Ah", "Kd"] ["2s"] (by decide) (by decide) (by decide)
    (by decide)

/-! ## Lemmas about sampling -/

theorem drawLoop_spec : ∀ (k : Nat) (l : List String) (g : RState),
    l.Nodup → k ≤ l.length →
    (drawLoop l k g).1.length = k ∧ (drawLoop l k g).1.Nodup ∧
      (drawLoop l k g).1 ⊆ l ∧ (drawLoop l k g).2 = g + k := by
  intro k
  induction k with
  | zero => intro l g _ _; simp [drawLoop]
  | succ k ih =>
    intro l g hnd hlen
    have hpos : 0 < l.length := by omega
    have hidx : g % l.length < l.length := Nat.mod_lt _ hpos
    have hcl : l.getD (g % l.length) "" ∈ l := by
      rw [List.getD_eq_getElem l _ hidx]
      exact List.getElem_mem hidx
    set c := l.getD (g % l.length) "" with hc
    have hlen2 : k ≤ (l.erase c).length := by
      rw [List.length_erase_of_mem hcl]; omega
    obtain ⟨ih1, ih2, ih3, ih4⟩ := ih (l.erase c) (g + 1) (hnd.erase c) hlen2
    rcases hdl : drawLoop (l.erase c) k (g + 1) with ⟨rest, g'⟩
    rw [hdl] at ih1 ih2 ih3 ih4
    have hstep : drawLoop l (k + 1) g = (c :: rest, g') := by
      simp only [drawLoop, ← hc, hdl]
    rw [hstep]
    refine ⟨by simpa using ih1, ?_, ?_, ?_⟩
    · refine List.nodup_cons.mpr ⟨fun hmem => ?_, ih2⟩
      exact absurd ((hnd.mem_erase_iff).mp (ih3 hmem)).1 (by simp)
    · exact List.cons_subset.mpr ⟨hcl, ih3.trans (List.erase_subset c l)⟩
    · have h4 : g' = g + 1 + k := ih4
      show g' = g + (k + 1)
      rw [h4, Nat.add_assoc, Nat.add_comm 1 k]

theorem pySample_zero (l : List String) (g : RState) :
    pySample l 0 g = (some [], g) := by
  simp [pySample, drawLoop]

theorem pySample_spec (l : List String) (k : Nat) (g : RState)
    (hnd : l.Nodup) (hlen : k ≤ l.length) :
    ∃ s : List String, pySample l (k : Int) g = (some s, g + k) ∧
      s.length = k ∧ s.Nodup ∧ s ⊆ l := by
  obtain ⟨h1, h2, h3, h4⟩ := drawLoop_spec k l g hnd hlen
  rcases hdl : drawLoop l k g with ⟨s, g'⟩
  rw [hdl] at h1 h2 h3 h4
  refine ⟨s, ?_, h1, h2, h3⟩
  have hguard : ¬((k : Int) < 0 ∨ (l.length : Int) < (k : Int)) := by
    push_neg
    constructor
    · exact Int.natCast_nonneg k
    · exact_mod_cast hlen
  simp only [pySample, if_neg hguard, Int.toNat_natCast, hdl]
  exact congrArg (Prod.mk (some s)) h4

theorem pySample_neg (l : List String) (k : Int) (g : RState) (hk : k < 0) :
    pySample l k g = (none, g) := by
  simp [pySample, hk]

/-! ## Lemmas about the simulation loop -/

theorem deck_valid : ∀ c ∈ deck, (rankIndexOf c).isSome := by decide

theorem deck_nodup : deck.Nodup := by decide

theorem countP_add_countP_le_length {α : Type} (l : List α) (p q : α → Bool)
    (h : ∀ x ∈ l, p x = true → q x = false) :
    l.countP p + l.countP q ≤ l.length := by
  induction l with
  | nil => simp
  | cons a l ih =>
    have ha := h a (List.mem_cons_self a l)
    have ihl := ih (fun x hx hpx => h x (List.mem_cons_of_mem a hx) hpx)
    rw [List.countP_cons, List.countP_cons]
    cases hpa : p a
    · cases hqa : q a <;> simp [hpa, hqa] <;> omega
    · simp [hpa, ha hpa, List.length_cons]
      omega

theorem filter_length_split {α : Type} (l : List α) (p : α → Bool) :
    (l.filter p).length + (l.filter (fun a => !(p a))).length = l.length := by
  induction l with
  | nil => rfl
  | cons a l ih => cases hpa : p a <;> simp [List.filter_cons, hpa] <;> omega

theorem filter_mem_length_le {α : Type} [DecidableEq α] (l d : List α)
    (hl : l.Nodup) :
    (l.filter (fun c => decide (c ∈ d))).length ≤ d.length := by
  have hnd : (l.filter (fun c => decide (c ∈ d))).Nodup := hl.filter _
  have hsub : ∀ c ∈ l.filter (fun c => decide (c ∈ d)), c ∈ d := by
    intro c hcf
    exact of_decide_eq_true (List.mem_filter.mp hcf).2
  calc (l.filter (fun c => decide (c ∈ d))).length
      = (l.filter (fun c => decide (c ∈ d))).toFinset.card :=
        (List.toFinset_card_of_nodup hnd).symm
    _ ≤ d.toFinset.card := Finset.card_le_card
        (fun x hx => List.mem_toFinset.mpr (hsub x (List.mem_toFinset.mp hx)))
    _ ≤ d.length := d.toFinset_card_le

theorem deckLeft_length_ge (hero villain board : List String)
    (h : hero.length + villain.length + board.length ≤ 9) :
    43 ≤ (deckLeft hero villain board).length := by
  have hsplit := filter_length_split deck
    (fun c => decide (c ∈ hero ++ villain ++ board))
  have hle := filter_mem_length_le deck (hero ++ villain ++ board) deck_nodup
  have hdeck : deck.length = 52 := by decide
  have heq : deckLeft hero villain board =
      deck.filter (fun c => !(decide (c ∈ hero ++ villain ++ board))) := by
    unfold deckLeft
    exact List.filter_congr (fun a _ => by simp [decide_not])
  have hlen : (hero ++ villain ++ board).length =
      hero.length + villain.length + board.length := by
    rw [List.length_append, List.length_append]
  rw [heq]
  omega

theorem deckLeft_nodup (hero villain board : List String) :
    (deckLeft hero villain board).Nodup := deck_nodup.filter _

theorem deckLeft_valid (hero villain board : List String) :
    ∀ c ∈ deckLeft hero villain board, (rankIndexOf c).isSome :=
  fun c hc => deck_valid c (List.mem_of_mem_filter hc)

theorem mcLoop_board5 (hero villain board dl : List String) (hb vb : Nat)
    (h5 : board.length = 5)
    (hhs : hand_strength (hero ++ board) = some hb)
    (hvs : hand_strength (villain ++ board) = some vb) :
    ∀ (n : Nat) (g : RState) (w t c : Nat),
      mcLoop hero villain board dl n g w t c =
        (some (w + (if vb < hb then n else 0), t + (if hb = vb then n else 0)),
         c + 2 * n, g) := by
  intro n
  induction n with
  | zero => intro g w t c; simp [mcLoop]
  | succ n ihn =>
    intro g w t c
    have hneed : (5 : Int) - (board.length : Int) = 0 := by rw [h5]; norm_num
    have hps : pySample dl (5 - (board.length : Int)) g = (some [], g) := by
      rw [hneed]; exact pySample_zero dl g
    rcases Nat.lt_trichotomy vb hb with hcmp | hcmp | hcmp
    · have hstep : mcLoop hero villain board dl (n + 1) g w t c =
          mcLoop hero villain board dl n g (w + 1) t (c + 2) := by
        simp only [mcLoop, hps, List.append_nil, hhs, hvs]
        rw [if_pos hcmp]
      rw [hstep, ihn]
      simp only [Prod.mk.injEq, Option.some.injEq]
      refine ⟨⟨by simp [hcmp]; omega, ?_⟩, by omega, trivial⟩
      have hne : ¬ hb = vb := by omega
      simp [hne]
    · have hstep : mcLoop hero villain board dl (n + 1) g w t c =
          mcLoop hero villain board dl n g w (t + 1) (c + 2) := by
        simp only [mcLoop, hps, List.append_nil, hhs, hvs]
        rw [if_neg (by omega), if_pos hcmp.symm]
      rw [hstep, ihn]
      simp only [Prod.mk.injEq, Option.some.injEq]
      refine ⟨⟨?_, ?_⟩, by omega, trivial⟩
      · have : ¬ vb < hb := by omega
        simp [this]
      · simp [hcmp]; omega
    · have hstep : mcLoop hero villain board dl (n + 1) g w t c =
          mcLoop hero villain board dl n g w t (c + 2) := by
        simp only [mcLoop, hps, List.append_nil, hhs, hvs]
        rw [if_neg (by omega), if_neg (by omega)]
      rw [hstep, ihn]
      simp only [Prod.mk.injEq, Option.some.injEq]
      have h1 : ¬ vb < hb := by omega
      have h2 : ¬ hb = vb := by omega
      refine ⟨⟨by simp [h1], by simp [h2]⟩, by omega, trivial⟩

theorem mcLoop_swap (hero villain board dl : List String) :
    ∀ (n : Nat) (g : RState) (w1 t1 c1 w2 t2 c2 : Nat),
      ((mcLoop hero villain board dl n g w1 t1 c1).1 = none →
        (mcLoop villain hero board dl n g w2 t2 c2).1 = none) ∧
      (∀ w t, (mcLoop hero villain board dl n g w1 t1 c1).1 = some (w, t) →
        ∃ W T L, W + T + L = n ∧ w = w1 + W ∧ t = t1 + T ∧
          (mcLoop villain hero board dl n g w2 t2 c2).1 = some (w2 + L, t2 + T)) := by
  intro n
  induction n with
  | zero =>
    intro g w1 t1 c1 w2 t2 c2
    constructor
    · intro h; simp [mcLoop] at h
    · intro w t h
      simp only [mcLoop, Option.some.injEq, Prod.mk.injEq] at h
      exact ⟨0, 0, 0, rfl, by omega, by omega, by simp [mcLoop]⟩
  | succ n ih =>
    intro g w1 t1 c1 w2 t2 c2
    rcases hps : pySample dl (5 - (board.length : Int)) g with ⟨os, g'⟩
    rcases os with _ | s
    · constructor
      · intro _; simp [mcLoop, hps]
      · intro w t h; simp [mcLoop, hps] at h
    · rcases hhB : hand_strength (hero ++ (board ++ s)) with _ | a
      · constructor
        · intro _
          rcases hvB : hand_strength (villain ++ (board ++ s)) with _ | b
          · simp [mcLoop, hps, hvB]
          · simp [mcLoop, hps, hvB, hhB]
        · intro w t h
          simp [mcLoop, hps, hhB] at h
      · rcases hvB : hand_strength (villain ++ (board ++ s)) with _ | b
        · constructor
          · intro _; simp [mcLoop, hps, hvB]
          · intro w t h; simp [mcLoop, hps, hhB, hvB] at h
        · rcases Nat.lt_trichotomy b a with hcmp | hcmp | hcmp
          · -- hero wins this iteration
            have hstep1 : mcLoop hero villain board dl (n + 1) g w1 t1 c1 =
                mcLoop hero villain board dl n g' (w1 + 1) t1 (c1 + 2) := by
              simp only [mcLoop, hps, hhB, hvB]
              rw [if_pos hcmp]
            have hstep2 : mcLoop villain hero board dl (n + 1) g w2 t2 c2 =
                mcLoop villain hero board dl n g' w2 t2 (c2 + 2) := by
              simp only [mcLoop, hps, hhB, hvB]
              rw [if_neg (by omega), if_neg (by omega)]
            rw [hstep1, hstep2]
            obtain ⟨ihn, ihs⟩ := ih g' (w1 + 1) t1 (c1 + 2) w2 t2 (c2 + 2)
            constructor
            · exact ihn
            · intro w t h
              obtain ⟨W, T, L, hWTL, hw, ht, hout⟩ := ihs w t h
              exact ⟨W + 1, T, L, by omega, by omega, ht, hout⟩
          · -- tie this iteration
            have hstep1 : mcLoop hero villain board dl (n + 1) g w1 t1 c1 =
                mcLoop hero villain board dl n g' w1 (t1 + 1) (c1 + 2) := by
              simp only [mcLoop, hps, hhB, hvB]
              rw [if_neg (by omega), if_pos hcmp.symm]
            have hstep2 : mcLoop villain hero board dl (n + 1) g w2 t2 c2 =
                mcLoop villain hero board dl n g' w2 (t2 + 1) (c2 + 2) := by
              simp only [mcLoop, hps, hhB, hvB]
              rw [if_neg (by omega), if_pos hcmp]
            rw [hstep1, hstep2]
            obtain ⟨ihn, ihs⟩ := ih g' w1 (t1 + 1) (c1 + 2) w2 (t2 + 1) (c2 + 2)
            constructor
            · exact ihn
            · intro w t h
              obtain ⟨W, T, L, hWTL, hw, ht, hout⟩ := ihs w t h
              refine ⟨W, T + 1, L, by omega, hw, by omega, ?_⟩
              have harith : t2 + 1 + T = t2 + (T + 1) := by omega
              rw [hout, harith]
          · -- villain wins this iteration
            have hstep1 : mcLoop hero villain board dl (n + 1) g w1 t1 c1 =
                mcLoop hero villain board dl n g' w1 t1 (c1 + 2) := by
              simp only [mcLoop, hps, hhB, hvB]
              rw [if_neg (by omega), if_neg (by omega)]
            have hstep2 : mcLoop villain hero board dl (n + 1) g w2 t2 c2 =
                mcLoop villain hero board dl n g' (w2 + 1) t2 (c2 + 2) := by
              simp only [mcLoop, hps, hhB, hvB]
              rw [if_pos hcmp]
            rw [hstep1, hstep2]
            obtain ⟨ihn, ihs⟩ := ih g' w1 t1 (c1 + 2) (w2 + 1) t2 (c2 + 2)
            constructor
            · exact ihn
            · intro w t h
              obtain ⟨W, T, L, hWTL, hw, ht, hout⟩ := ihs w t h
              refine ⟨W, T, L + 1, by omega, hw, ht, ?_⟩
              have harith : w2 + 1 + L = w2 + (L + 1) := by omega
              rw [hout, harith]

theorem valid_append {xs ys : List String}
    (hxs : ∀ c ∈ xs, (rankIndexOf c).isSome)
    (hys : ∀ c ∈ ys, (rankIndexOf c).isSome) :
    ∀ c ∈ xs ++ ys, (rankIndexOf c).isSome := by
  intro c hc
  rcases List.mem_append.mp hc with h | h
  · exact hxs c h
  · exact hys c h

theorem mcLoop_success (hero villain board dl : List String)
    (hdl_nd : dl.Nodup)
    (hdl_val : ∀ c ∈ dl, (rankIndexOf c).isSome)
    (hh_val : ∀ c ∈ hero, (rankIndexOf c).isSome)
    (hv_val : ∀ c ∈ villain, (rankIndexOf c).isSome)
    (hb_val : ∀ c ∈ board, (rankIndexOf c).isSome)
    (hb5 : board.length ≤ 5)
    (hlen : 5 - board.length ≤ dl.length) :
    ∀ (n : Nat) (g : RState) (w t c : Nat),
      ∃ (samples : List (List String)) (gf : RState),
        samples.length = n ∧
        (∀ s ∈ samples, s.length = 5 - board.length ∧ s.Nodup ∧ s ⊆ dl) ∧
        mcLoop hero villain board dl n g w t c =
          (some (w + winCount hero villain board samples,
                 t + tieCount hero villain board samples), c + 2 * n, gf) := by
  intro n
  induction n with
  | zero =>
    intro g w t c
    refine ⟨[], g, rfl, by simp, ?_⟩
    simp [mcLoop, winCount, tieCount]
  | succ n ihn =>
    intro g w t c
    obtain ⟨s, hps, hslen, hsnd, hssub⟩ :=
      pySample_spec dl (5 - board.length) g hdl_nd hlen
    have hcast : (5 : Int) - (board.length : Int) =
        ((5 - board.length : Nat) : Int) := by omega
    have hps2 : pySample dl (5 - (board.length : Int)) g =
        (some s, g + (5 - board.length)) := by rw [hcast]; exact hps
    have hfb_val : ∀ x ∈ board ++ s, (rankIndexOf x).isSome :=
      valid_append hb_val (fun x hx => hdl_val x (hssub hx))
    have hfb_len : (board ++ s).length = 5 := by
      rw [List.length_append, hslen]; omega
    have hfb_ne : board ++ s ≠ [] := by
      intro hnil; rw [hnil] at hfb_len; simp at hfb_len
    have hh_ne : hero ++ (board ++ s) ≠ [] := by
      intro hnil
      exact hfb_ne (List.append_eq_nil.mp hnil).2
    have hv_ne : villain ++ (board ++ s) ≠ [] := by
      intro hnil
      exact hfb_ne (List.append_eq_nil.mp hnil).2
    have hhs := hand_strength_valid (hero ++ (board ++ s)) hh_ne
      (valid_append hh_val hfb_val)
    have hvs := hand_strength_valid (villain ++ (board ++ s)) hv_ne
      (valid_append hv_val hfb_val)
    have hsdh : strengthD (hero ++ (board ++ s)) =
        highestRank (hero ++ (board ++ s)) := by rw [strengthD, hhs]; rfl
    have hsdv : strengthD (villain ++ (board ++ s)) =
        highestRank (villain ++ (board ++ s)) := by rw [strengthD, hvs]; rfl
    rcases Nat.lt_trichotomy (highestRank (villain ++ (board ++ s)))
      (highestRank (hero ++ (board ++ s))) with hcmp | hcmp | hcmp
    · obtain ⟨rest, gf, hrl, hrp, hreq⟩ := ihn (g + (5 - board.length)) (w + 1) t (c + 2)
      refine ⟨s :: rest, gf, by simp [hrl], ?_, ?_⟩
      · intro x hx
        rcases List.mem_cons.mp hx with rfl | hx
        · exact ⟨hslen, hsnd, hssub⟩
        · exact hrp x hx
      · have hpw : decide (strengthD (villain ++ (board ++ s)) <
            strengthD (hero ++ (board ++ s))) = true := by
          rw [hsdh, hsdv]; exact decide_eq_true hcmp
        have hpt : decide (strengthD (hero ++ (board ++ s)) =
            strengthD (villain ++ (board ++ s))) = false := by
          rw [hsdh, hsdv]
          exact decide_eq_false (by omega)
        have hw : winCount hero villain board (s :: rest) =
            winCount hero villain board rest + 1 := by
          simp only [winCount, List.countP_cons, hpw]
          simp
        have ht : tieCount hero villain board (s :: rest) =
            tieCount hero villain board rest := by
          simp only [tieCount, List.countP_cons, hpt]
          simp
        have hstep : mcLoop hero villain board dl (n + 1) g w t c =
            mcLoop hero villain board dl n (g + (5 - board.length)) (w + 1) t (c + 2) := by
          simp only [mcLoop, hps2, hhs, hvs]
          rw [if_pos hcmp]
        have e1 : w + 1 + winCount hero villain board rest =
            w + (winCount hero villain board rest + 1) := by omega
        have e2 : c + 2 + 2 * n = c + 2 * (n + 1) := by omega
        rw [hstep, hreq, hw, ht, e1, e2]
    · obtain ⟨rest, gf, hrl, hrp, hreq⟩ := ihn (g + (5 - board.length)) w (t + 1) (c + 2)
      refine ⟨s :: rest, gf, by simp [hrl], ?_, ?_⟩
      · intro x hx
        rcases List.mem_cons.mp hx with rfl | hx
        · exact ⟨hslen, hsnd, hssub⟩
        · exact hrp x hx
      · have hpw : decide (strengthD (villain ++ (board ++ s)) <
            strengthD (hero ++ (board ++ s))) = false := by
          rw [hsdh, hsdv]
          exact decide_eq_false (by omega)
        have hpt : decide (strengthD (hero ++ (board ++ s)) =
            strengthD (villain ++ (board ++ s))) = true := by
          rw [hsdh, hsdv]; exact decide_eq_true hcmp.symm
        have hw : winCount hero villain board (s :: rest) =
            winCount hero villain board rest := by
          simp only [winCount, List.countP_cons, hpw]
          simp
        have ht : tieCount hero villain board (s :: rest) =
            tieCount hero villain board rest + 1 := by
          simp only [tieCount, List.countP_cons, hpt]
          simp
        have hstep : mcLoop hero villain board dl (n + 1) g w t c =
            mcLoop hero villain board dl n (g + (5 - board.length)) w (t + 1) (c + 2) := by
          simp only [mcLoop, hps2, hhs, hvs]
          rw [if_neg (by omega), if_pos hcmp.symm]
        have e1 : t + 1 + tieCount hero villain board rest =
            t + (tieCount hero villain board rest + 1) := by omega
        have e2 : c + 2 + 2 * n = c + 2 * (n + 1) := by omega
        rw [hstep, hreq, hw, ht, e1, e2]
    · obtain ⟨rest, gf, hrl, hrp, hreq⟩ := ihn (g + (5 - board.length)) w t (c + 2)
      refine ⟨s :: rest, gf, by simp [hrl], ?_, ?_⟩
      · intro x hx
        rcases List.mem_cons.mp hx with rfl | hx
        · exact ⟨hslen, hsnd, hssub⟩
        · exact hrp x hx
      · have hpw : decide (strengthD (villain ++ (board ++ s)) <
            strengthD (hero ++ (board ++ s))) = false := by
          rw [hsdh, hsdv]
          exact decide_eq_false (by omega)
        have hpt : decide (strengthD (hero ++ (board ++ s)) =
            strengthD (villain ++ (board ++ s))) = false := by
          rw [hsdh, hsdv]
          exact decide_eq_false (by omega)
        have hw : winCount hero villain board (s :: rest) =
            winCount hero villain board rest := by
          simp only [winCount, List.countP_cons, hpw]
          simp
        have ht : tieCount hero villain board (s :: rest) =
            tieCount hero villain board rest := by
          simp only [tieCount, List.countP_cons, hpt]
          simp
        have hstep : mcLoop hero villain board dl (n + 1) g w t c =
            mcLoop hero villain board dl n (g + (5 - board.length)) w t (c + 2) := by
          simp only [mcLoop, hps2, hhs, hvs]
          rw [if_neg (by omega), if_neg (by omega)]
        have e2 : c + 2 + 2 * n = c + 2 * (n + 1) := by omega
        rw [hstep, hreq, hw, ht, e2]

/-! ## Claim theorems about the equity estimator -/

/-- C1: under the estimator's documented preconditions (valid pairwise-disjoint
hole cards and board, at most two hole cards per player, board of at most five
cards, at least one iteration) `monte_carlo_equity` returns
`(wins + 0.5*ties) / iterations`, where wins and ties are tallied over exactly
`iterations` completions of the board, each one a `5 - len(board)`-card draw
without replacement from the full deck minus the dead cards; a completion is a
win when the hero's strength is strictly greater and a tie when the strengths
are equal, and the returned value lies in `[0, 1]`. -/
theorem monte_carlo_equity_spec
    (hero villain board : List String) (iters : Nat) (seed : Option Int)
    (g : RState)
    (hh_val : ∀ c ∈ hero, (rankIndexOf c).isSome)
    (hv_val : ∀ c ∈ villain, (rankIndexOf c).isSome)
    (hb_val : ∀ c ∈ board, (rankIndexOf c).isSome)
    (hdhv : ∀ c ∈ hero, c ∉ villain) (hdhb : ∀ c ∈ hero, c ∉ board)
    (hdvb : ∀ c ∈ villain, c ∉ board)
    (hh2 : hero.length ≤ 2) (hv2 : villain.length ≤ 2)
    (hb5 : board.length ≤ 5) (hi : 1 ≤ iters) :
    ∃ (samples : List (List String)) (q : ℚ),
      samples.length = iters ∧
      (∀ s ∈ samples, s.length = 5 - board.length ∧ s.Nodup ∧
        s ⊆ deckLeft hero villain board) ∧
      (monte_carlo_equity hero villain board iters seed g).1 = some q ∧
      q = ((winCount hero villain board samples : ℚ) +
           (tieCount hero villain board samples : ℚ) * (1 / 2)) / (iters : ℚ) ∧
      0 ≤ q ∧ q ≤ 1 := by
  have hdl_nd := deckLeft_nodup hero villain board
  have hdl_val := deckLeft_valid hero villain board
  have hdl_len : 5 - board.length ≤ (deckLeft hero villain board).length := by
    have := deckLeft_length_ge hero villain board (by omega)
    omega
  obtain ⟨samples, gf, hslen, hsprops, hloop⟩ :=
    mcLoop_success hero villain board (deckLeft hero villain board)
      hdl_nd hdl_val hh_val hv_val hb_val hb5 hdl_len iters
      (applySeed seed g) 0 0 0
  have hdl_eq : deckLeft hero villain board =
      deck.filter (fun c => decide (c ∉ hero ++ villain ++ board)) := rfl
  rw [hdl_eq] at hloop
  have hmc : (monte_carlo_equity hero villain board iters seed g).1 =
      some (((winCount hero villain board samples : ℚ) +
             (tieCount hero villain board samples : ℚ) * (1 / 2)) / (iters : ℚ)) := by
    simp only [monte_carlo_equity, hloop, Nat.zero_add]
    rw [if_neg (by omega)]
  have hWT : winCount hero villain board samples +
      tieCount hero villain board samples ≤ iters := by
    rw [← hslen]
    apply countP_add_countP_le_length
    intro x _ hpx
    simp only [decide_eq_true_eq] at hpx
    exact decide_eq_false (by omega)
  have hiq : (0 : ℚ) < (iters : ℚ) := by exact_mod_cast hi
  have hsum : (winCount hero villain board samples : ℚ) +
      (tieCount hero villain board samples : ℚ) ≤ (iters : ℚ) := by
    exact_mod_cast hWT
  have hT0 : (0 : ℚ) ≤ (tieCount hero villain board samples : ℚ) := by positivity
  refine ⟨samples, _, hslen, hsprops, hmc, rfl, by positivity, ?_⟩
  rw [div_le_one hiq]
  linarith

/-- Closed instance of `monte_carlo_equity_spec` at a concrete input. -/
theorem monte_carlo_equity_spec_witness :
    ∃ (samples : List (List String)) (q : ℚ),
      samples.length = 1 ∧
      (∀ s ∈ samples, s.length = 5 - ([] : List String).length ∧ s.Nodup ∧
        s ⊆ deckLeft ["Ah", "Kd"] ["Qs", "Qc"] []) ∧
      (monte_carlo_equity ["Ah", "Kd"] ["Qs", "Qc"] [] 1 none 0).1 = some q ∧
      q = ((winCount ["Ah", "Kd"] ["Qs", "Qc"] [] samples : ℚ) +
           (tieCount ["Ah", "Kd"] ["Qs", "Qc"] [] samples : ℚ) * (1 / 2)) /
          ((1 : Nat) : ℚ) ∧
      0 ≤ q ∧ q ≤ 1 :=
  monte_carlo_equity_spec ["Ah", "Kd"] ["Qs", "Qc"] [] 1 none 0 (by decide)
    (by decide) (by decide) (by decide) (by decide) (by decide) (by decide)
    (by decide) (by decide) (by decide)

/-- C4 (amended): for a complete 5-card board the returned equity is exactly
`1`, `1/2` or `0`, matching the direct comparison of
`hand_strength (hero ++ board)` with `hand_strength (villain ++ board)`, for
any iteration count `≥ 1`; however the loop is not short-circuited: the
comparator runs twice per iteration (`2 * iters` calls in total, not once),
while `random.sample` is asked for `0` cards each time, so the random state
is left untouched apart from the optional seeding. -/
theorem monte_carlo_equity_board5
    (hero villain board : List String) (iters : Nat) (seed : Option Int)
    (g : RState)
    (hh_val : ∀ c ∈ hero, (rankIndexOf c).isSome)
    (hv_val : ∀ c ∈ villain, (rankIndexOf c).isSome)
    (hb_val : ∀ c ∈ board, (rankIndexOf c).isSome)
    (hdhb : ∀ c ∈ hero, c ∉ board) (hdvb : ∀ c ∈ villain, c ∉ board)
    (hb5 : board.length = 5) (hi : 1 ≤ iters) :
    ∃ hb vb : Nat,
      hand_strength (hero ++ board) = some hb ∧
      hand_strength (villain ++ board) = some vb ∧
      monte_carlo_equity hero villain board iters seed g =
        (some (if vb < hb then 1 else if hb = vb then 1 / 2 else 0),
         2 * iters, applySeed seed g) := by
  have hb_ne : board ≠ [] := by
    intro hnil; rw [hnil] at hb5; simp at hb5
  have hh_ne : hero ++ board ≠ [] := fun hnil =>
    hb_ne (List.append_eq_nil.mp hnil).2
  have hv_ne : villain ++ board ≠ [] := fun hnil =>
    hb_ne (List.append_eq_nil.mp hnil).2
  have hhs := hand_strength_valid (hero ++ board) hh_ne
    (valid_append hh_val hb_val)
  have hvs := hand_strength_valid (villain ++ board) hv_ne
    (valid_append hv_val hb_val)
  refine ⟨highestRank (hero ++ board), highestRank (villain ++ board),
    hhs, hvs, ?_⟩
  have hloop := mcLoop_board5 hero villain board
    (deck.filter (fun c => decide (c ∉ hero ++ villain ++ board)))
    (highestRank (hero ++ board)) (highestRank (villain ++ board))
    hb5 hhs hvs iters (applySeed seed g) 0 0 0
  simp only [monte_carlo_equity, hloop, Nat.zero_add]
  rw [if_neg (by omega : ¬ iters = 0)]
  rcases Nat.lt_trichotomy (highestRank (villain ++ board))
    (highestRank (hero ++ board)) with hcmp | hcmp | hcmp
  · have h1 : ¬ highestRank (hero ++ board) = highestRank (villain ++ board) := by
      omega
    rw [if_pos hcmp, if_pos hcmp, if_neg h1]
    have hval : ((iters : Nat) : ℚ) + ((0 : Nat) : ℚ) * (1 / 2) = (iters : ℚ) := by
      push_cast; ring
    rw [hval, div_self (by positivity : ((iters : ℚ)) ≠ 0)]
  · have h1 : ¬ highestRank (villain ++ board) < highestRank (hero ++ board) := by
      omega
    rw [if_neg h1, if_neg h1, if_pos hcmp.symm, if_pos hcmp.symm]
    have hval : ((0 : Nat) : ℚ) + ((iters : Nat) : ℚ) * (1 / 2) =
        (iters : ℚ) * (1 / 2) := by push_cast; ring
    rw [hval]
    have hne : ((iters : ℚ)) ≠ 0 := by positivity
    field_simp
    ring
  · have h1 : ¬ highestRank (villain ++ board) < highestRank (hero ++ board) := by
      omega
    have h2 : ¬ highestRank (hero ++ board) = highestRank (villain ++ board) := by
      omega
    rw [if_neg h1, if_neg h1, if_neg h2, if_neg h2]
    norm_num

/-- C4 counterexample: at the spec's own complete-board example, run with two
iterations, the comparator-call counter of the loop is `4`, not `1` — the
comparator is evaluated twice per iteration even though the board is already
complete. -/
theorem monte_carlo_equity_board5_comparator_calls :
    monte_carlo_equity ["Ah", "Kd"] ["Qs", "Qc"]
        ["2h", "3d", "9c", "Jd", "Tc"] 2 none 0 = (some 1, 4, 0) ∧
      (4 : Nat) ≠ 1 := by
  refine ⟨?_, by decide⟩
  have hl : mcLoop ["Ah", "Kd"] ["Qs", "Qc"] ["2h", "3d", "9c", "Jd", "Tc"]
      (deck.filter (fun c => decide (c ∉
        ["Ah", "Kd"] ++ ["Qs", "Qc"] ++ ["2h", "3d", "9c", "Jd", "Tc"])))
      2 0 0 0 0 = (some (2, 0), 4, 0) := by decide
  simp only [monte_carlo_equity, applySeed, hl]
  norm_num

/-- Closed instance of `monte_carlo_equity_board5` at the spec's example. -/
theorem monte_carlo_equity_board5_witness :
    ∃ hb vb : Nat,
      hand_strength (["Ah", "Kd"] ++ ["2h", "3d", "9c", "Jd", "Tc"]) = some hb ∧
      hand_strength (["Qs", "Qc"] ++ ["2h", "3d", "9c", "Jd", "Tc"]) = some vb ∧
      monte_carlo_equity ["Ah", "Kd"] ["Qs", "Qc"]
          ["2h", "3d", "9c", "Jd", "Tc"] 3 none 0 =
        (some (if vb < hb then 1 else if hb = vb then 1 / 2 else 0),
         2 * 3, applySeed none 0) :=
  monte_carlo_equity_board5 ["Ah", "Kd"] ["Qs", "Qc"]
    ["2h", "3d", "9c", "Jd", "Tc"] 3 none 0 (by decide) (by decide) (by decide)
    (by decide) (by decide) (by decide) (by decide)

/-- C10: with an iteration count of `0` the simulation loop runs zero times
and the final division `(wins + ties*0.5) / mc_iters` raises
`ZeroDivisionError`: no value is ever returned. -/
theorem monte_carlo_equity_zero_iters (hero villain board : List String)
    (seed : Option Int) (g : RState) :
    (monte_carlo_equity hero villain board 0 seed g).1 = none := by
  simp [monte_carlo_equity, mcLoop]

/-- Evaluation helper: an `mcLoop` run that ended in tallies `(w, t)` fixes
the whole `monte_carlo_equity` output. -/
theorem monte_carlo_equity_eq_of_mcLoop (hero villain board : List String)
    (iters : Nat) (seed : Option Int) (g : RState) (w t cc : Nat) (gf : RState)
    (hz : iters ≠ 0)
    (hl : mcLoop hero villain board (deckLeft hero villain board) iters
        (applySeed seed g) 0 0 0 = (some (w, t), cc, gf)) :
    monte_carlo_equity hero villain board iters seed g =
      (some (((w : ℚ) + (t : ℚ) * (1 / 2)) / (iters : ℚ)), cc, gf) := by
  have hdl : deckLeft hero villain board =
      deck.filter (fun c => decide (c ∉ hero ++ villain ++ board)) := rfl
  rw [hdl] at hl
  simp only [monte_carlo_equity, hl]
  rw [if_neg hz]

/-- C9: for a complete 5-card board (disjoint from both holdings), any
iteration count and any seed, swapping the two holdings complements the
returned equity exactly: the swapped call returns `1 - q` whenever the
original returns `q`, and fails exactly when the original fails.  (The proof
establishes this for every board, complete or not, under the same seed and
incoming generator state.) -/
theorem monte_carlo_equity_swap
    (hero villain board : List String) (iters : Nat) (seed : Option Int)
    (g : RState)
    (hb5 : board.length = 5)
    (hdhb : ∀ c ∈ hero, c ∉ board) (hdvb : ∀ c ∈ villain, c ∉ board) :
    (monte_carlo_equity villain hero board iters seed g).1 =
      ((monte_carlo_equity hero villain board iters seed g).1).map
        (fun q => 1 - q) := by
  have hdl_eq : deck.filter (fun c => decide (c ∉ villain ++ hero ++ board)) =
      deck.filter (fun c => decide (c ∉ hero ++ villain ++ board)) := by
    apply List.filter_congr
    intro a _
    apply decide_eq_decide.mpr
    simp only [List.mem_append]
    tauto
  obtain ⟨hnone, hsome⟩ := mcLoop_swap hero villain board
    (deck.filter (fun c => decide (c ∉ hero ++ villain ++ board))) iters
    (applySeed seed g) 0 0 0 0 0 0
  rcases hm : mcLoop hero villain board
      (deck.filter (fun c => decide (c ∉ hero ++ villain ++ board))) iters
      (applySeed seed g) 0 0 0 with ⟨r, cc, gg⟩
  rcases r with _ | wt
  · have h2 := hnone (by rw [hm])
    rcases hm2 : mcLoop villain hero board
        (deck.filter (fun c => decide (c ∉ hero ++ villain ++ board))) iters
        (applySeed seed g) 0 0 0 with ⟨r2, cc2, gg2⟩
    rw [hm2] at h2
    have hr2 : r2 = none := h2
    subst hr2
    simp only [monte_carlo_equity, hdl_eq, hm, hm2]
    rfl
  · rcases wt with ⟨w, t⟩
    obtain ⟨W, T, L, hWTL, hw, ht, hout⟩ := hsome w t (by rw [hm])
    rcases hm2 : mcLoop villain hero board
        (deck.filter (fun c => decide (c ∉ hero ++ villain ++ board))) iters
        (applySeed seed g) 0 0 0 with ⟨r2, cc2, gg2⟩
    rw [hm2] at hout
    have hr2 : r2 = some (0 + L, 0 + T) := hout
    subst hr2
    by_cases hz : iters = 0
    · subst hz
      simp only [monte_carlo_equity, hdl_eq, hm, hm2, eq_self_iff_true, if_true]
      rfl
    · simp only [monte_carlo_equity, hdl_eq, hm, hm2, if_neg hz, Nat.zero_add]
      have hiq : ((iters : ℚ)) ≠ 0 := by
        exact_mod_cast hz
      have hcast : (W : ℚ) + (T : ℚ) + (L : ℚ) = (iters : ℚ) := by
        exact_mod_cast hWTL
      have hwq : (w : ℚ) = (W : ℚ) := by rw [hw]; push_cast; ring
      have htq : (t : ℚ) = (T : ℚ) := by rw [ht]; push_cast; ring
      have hmap : Option.map (fun q : ℚ => 1 - q)
          (some (((w : ℚ) + (t : ℚ) * (1 / 2)) / (iters : ℚ))) =
          some (1 - ((w : ℚ) + (t : ℚ) * (1 / 2)) / (iters : ℚ)) := rfl
      rw [hmap, Option.some.injEq, hwq, htq]
      field_simp
      linarith [hcast]

/-- Closed instance of `monte_carlo_equity_swap` at a concrete input. -/
theorem monte_carlo_equity_swap_witness :
    (monte_carlo_equity ["Qs", "Qc"] ["Ah", "Kd"]
        ["2h", "3d", "9c", "Jd", "Tc"] 3 none 0).1 =
      ((monte_carlo_equity ["Ah", "Kd"] ["Qs", "Qc"]
          ["2h", "3d", "9c", "Jd", "Tc"] 3 none 0).1).map (fun q => 1 - q) :=
  monte_carlo_equity_swap ["Ah", "Kd"] ["Qs", "Qc"]
    ["2h", "3d", "9c", "Jd", "Tc"] 3 none 0 (by decide) (by decide) (by decide)

/-- C7 (amended): for every *non-zero* supplied seed the estimator output is a
function of the arguments alone: two calls with the same arguments and the
same seed return identical results (value, comparator-call count and outgoing
state) regardless of the incoming generator state.  The seed `0` is exempt:
Python's `if seed:` treats it as falsy and skips the re-seeding. -/
theorem monte_carlo_equity_seed_deterministic
    (hero villain : List String) (iters : Nat) (S : Int) (g1 g2 : RState)
    (hh2 : hero.length = 2) (hv2 : villain.length = 2)
    (hd : ∀ c ∈ hero, c ∉ villain) (hi : 1 ≤ iters) (hS : S ≠ 0) :
    monte_carlo_equity hero villain [] iters (some S) g1 =
      monte_carlo_equity hero villain [] iters (some S) g2 := by
  have h1 : applySeed (some S) g1 = applySeed (some S) g2 := by
    simp [applySeed, hS]
  unfold monte_carlo_equity
  rw [h1]

/-- Closed instance of `monte_carlo_equity_seed_deterministic`: same seed from
two different incoming states. -/
theorem monte_carlo_equity_seed_deterministic_witness :
    monte_carlo_equity ["Ah", "Kd"] ["Qs", "Qc"] [] 1 (some 7) 0 =
      monte_carlo_equity ["Ah", "Kd"] ["Qs", "Qc"] [] 1 (some 7) 99 :=
  monte_carlo_equity_seed_deterministic ["Ah", "Kd"] ["Qs", "Qc"] 1 7 0 99
    (by decide) (by decide) (by decide) (by decide) (by decide)

/-- C7 counterexample: with the supplied seed `0` the seeding is skipped
(`if seed:` is falsy), so two consecutive calls with identical arguments and
the same seed disagree: from ambient state 45 the first call returns `1/2`
and leaves the generator at 50, from which the second call returns `1`. -/
theorem monte_carlo_equity_seed_zero_not_deterministic :
    monte_carlo_equity ["Ah", "2h"] ["Kd", "2d"] [] 1 (some 0) 45 =
      (some (1 / 2), 2, 50) ∧
    monte_carlo_equity ["Ah", "2h"] ["Kd", "2d"] [] 1 (some 0) 50 =
      (some 1, 2, 55) ∧
    ((1 : ℚ) / 2) ≠ 1 := by
  refine ⟨?_, ?_, by norm_num⟩
  · rw [monte_carlo_equity_eq_of_mcLoop ["Ah", "2h"] ["Kd", "2d"] [] 1
      (some 0) 45 0 1 2 50 (by decide) (by decide)]
    norm_num
  · rw [monte_carlo_equity_eq_of_mcLoop ["Ah", "2h"] ["Kd", "2d"] [] 1
      (some 0) 50 1 0 2 55 (by decide) (by decide)]
    norm_num

/-- C8: an overlapping hero/villain input is *not* rejected: with identical
two-card holdings (maximal overlap) the estimator silently returns the
equity `1/2` (every simulated showdown ties), instead of failing fast. -/
theorem monte_carlo_equity_overlap_silent :
    monte_carlo_equity ["Ah", "Kd"] ["Ah", "Kd"] [] 1 none 0 =
      (some (1 / 2), 2, 5) := by
  rw [monte_carlo_equity_eq_of_mcLoop ["Ah", "Kd"] ["Ah", "Kd"] [] 1
    none 0 0 1 2 5 (by decide) (by decide)]
  norm_num

/-! ## Claim theorems about EV attribution and session aggregation -/

/-- Evaluation helper: the row produced by `process_hand` on a qualifying
hand whose equity call returned `q`. -/
theorem process_hand_eval (hand : Hand) (args : Args) (g : RState)
    (hero villain : Player) (q : ℚ) (cc : Nat) (g' : RState)
    (hhero : List.lookup hand.hero hand.players = some hero)
    (hvill : (hand.players.find? (fun kv => kv.1 != hand.hero)).map Prod.snd =
      some villain)
    (hhc : hero.cards.isEmpty = false) (hvc : villain.cards.isEmpty = false)
    (heq : monte_carlo_equity hero.cards villain.cards hand.board
      args.mc_iters args.seed g = (some q, cc, g')) :
    process_hand hand args g =
      (some (some
        { hand_id := hand.hand_id
          date := hand.date
          hero := hand.hero
          equity := q
          eligible_pot := hand.total_pot -
            (if args.ev_before_rake then 0 else hand.rake)
          hero_invested := (hand.total_pot -
            (if args.ev_before_rake then 0 else hand.rake)) / 2
          ev_contrib := q * (hand.total_pot -
              (if args.ev_before_rake then 0 else hand.rake)) -
            (hand.total_pot - (if args.ev_before_rake then 0 else hand.rake)) / 2
          hero_net := (List.lookup hand.hero hand.results).getD 0 }), g') := by
  simp only [process_hand, hhero, hvill, hhc, hvc, Bool.or_false, if_false,
    Bool.false_eq_true, heq]

/-- C3: on a qualifying hand the EV row satisfies
`eligiblePot = totalPot - (0 if evBeforeRake else rake)`,
`heroInvested = eligiblePot / 2`,
`evContribution = equity * eligiblePot - heroInvested`, and `heroNet` is the
hero's entry of the realized-result mapping (0 when absent); in particular
`totalPot = 100`, `rake = 5`, `evBeforeRake = False`, `equity = 3/5` give
`eligiblePot = 95`, `heroInvested = 47.5`, `evContribution = 9.5`. -/
theorem process_hand_ev_row (hand : Hand) (args : Args) (g g2 : RState)
    (hero villain : Player) (q : ℚ) (cc : Nat)
    (hhero : List.lookup hand.hero hand.players = some hero)
    (hvill : (hand.players.find? (fun kv => kv.1 != hand.hero)).map Prod.snd =
      some villain)
    (hhc : hero.cards.isEmpty = false) (hvc : villain.cards.isEmpty = false)
    (heq : monte_carlo_equity hero.cards villain.cards hand.board
      args.mc_iters args.seed g = (some q, cc, g2)) :
    ∃ row : Row,
      process_hand hand args g = (some (some row), g2) ∧
      row.equity = q ∧
      row.eligible_pot = hand.total_pot -
        (if args.ev_before_rake then 0 else hand.rake) ∧
      row.hero_invested = row.eligible_pot / 2 ∧
      row.ev_contrib = q * row.eligible_pot - row.hero_invested ∧
      row.hero_net = (List.lookup hand.hero hand.results).getD 0 ∧
      (hand.total_pot = 100 → hand.rake = 5 → args.ev_before_rake = false →
        q = 3 / 5 →
        row.eligible_pot = 95 ∧ row.hero_invested = 95 / 2 ∧
          row.ev_contrib = 19 / 2) := by
  refine ⟨_, process_hand_eval hand args g hero villain q cc g2
    hhero hvill hhc hvc heq, rfl, rfl, rfl, rfl, rfl, ?_⟩
  intro h100 h5 hbr hq
  rw [h100, h5, hbr, hq]
  norm_num

/-- Closed instance of `process_hand_ev_row` hitting the spec's numeric
example exactly: `totalPot = 100`, `rake = 5`, `evBeforeRake = False` and a
Monte Carlo run (5 iterations from generator state 24) whose equity is
exactly `3/5`. -/
theorem process_hand_ev_row_witness :
    ∃ row : Row,
      process_hand
        { hand_id := "c3"
          date := "d"
          hero := "Hero"
          players := [("Hero", ⟨"Hero", ["Qh", "2h"]⟩),
                      ("V", ⟨"V", ["Jd", "2d"]⟩)]
          board := []
          rake := 5
          total_pot := 100
          results := [("Hero", 10)] }
        { mc_iters := 5, seed := none, ev_before_rake := false } 24 =
        (some (some row), 49) ∧
      row.equity = 3 / 5 ∧
      row.eligible_pot = (100 : ℚ) - (if false then 0 else (5 : ℚ)) ∧
      row.hero_invested = row.eligible_pot / 2 ∧
      row.ev_contrib = 3 / 5 * row.eligible_pot - row.hero_invested ∧
      row.hero_net = (List.lookup "Hero" [("Hero", (10 : ℚ))]).getD 0 ∧
      ((100 : ℚ) = 100 → (5 : ℚ) = 5 → false = false → (3 / 5 : ℚ) = 3 / 5 →
        row.eligible_pot = 95 ∧ row.hero_invested = 95 / 2 ∧
          row.ev_contrib = 19 / 2) :=
  process_hand_ev_row
    { hand_id := "c3"
      date := "d"
      hero := "Hero"
      players := [("Hero", ⟨"Hero", ["Qh", "2h"]⟩), ("V", ⟨"V", ["Jd", "2d"]⟩)]
      board := []
      rake := 5
      total_pot := 100
      results := [("Hero", 10)] }
    { mc_iters := 5, seed := none, ev_before_rake := false } 24 49
    ⟨"Hero", ["Qh", "2h"]⟩ ⟨"V", ["Jd", "2d"]⟩ (3 / 5) 10
    (by decide) (by decide) (by decide) (by decide)
    (by rw [monte_carlo_equity_eq_of_mcLoop ["Qh", "2h"] ["Jd", "2d"] [] 5
          none 24 1 4 10 49 (by decide) (by decide)]
        norm_num)

/-- C5 (amended): a hand whose hero is missing from the player mapping, that
has no non-hero player, or whose hero's or first non-hero player's hole-card
list is *empty*, produces no EV row — `process_hand` returns the
not-applicable result `None` without raising and without touching the random
state — and the hand contributes nothing to the session's rows (hence nothing
to `netTotal` or `evTotal`). -/
theorem process_hand_skip (hand : Hand) (args : Args) (g : RState)
    (h : List.lookup hand.hero hand.players = none ∨
      hand.players.find? (fun kv => kv.1 != hand.hero) = none ∨
      (∃ hero : Player, List.lookup hand.hero hand.players = some hero ∧
        hero.cards = []) ∨
      (∃ kv : String × Player,
        hand.players.find? (fun kv => kv.1 != hand.hero) = some kv ∧
        kv.2.cards = [])) :
    process_hand hand args g = (some none, g) ∧
    ∀ (pre post : List Hand) (g0 : RState),
      sessionRows (pre ++ hand :: post) args g0 =
        sessionRows (pre ++ post) args g0 := by
  have key : ∀ g0 : RState, process_hand hand args g0 = (some none, g0) := by
    intro g0
    rcases h with h | h | ⟨hero, hh, hc⟩ | ⟨kv, hk, hc⟩
    · simp [process_hand, h]
    · simp [process_hand, h]
    · rcases hf : (hand.players.find? (fun kv => kv.1 != hand.hero)).map
          Prod.snd with _ | villain
      · simp [process_hand, hh, hf]
      · simp [process_hand, hh, hf, hc]
    · rcases hlk : List.lookup hand.hero hand.players with _ | hero
      · simp [process_hand, hlk]
      · simp [process_hand, hlk, hk, hc]
  refine ⟨key g, ?_⟩
  intro pre post g0
  induction pre generalizing g0 with
  | nil =>
    show sessionRows (hand :: post) args g0 = sessionRows post args g0
    rcases hs : sessionRows post args g0 with ⟨r, g2⟩
    rcases r with _ | rows <;> simp [sessionRows, key g0, hs]
  | cons p pre ih =>
    show sessionRows (p :: (pre ++ hand :: post)) args g0 =
      sessionRows (p :: (pre ++ post)) args g0
    rcases hp : process_hand p args g0 with ⟨r?, g2⟩
    rcases r? with _ | r?
    · simp [sessionRows, hp]
    · simp only [sessionRows, hp]
      rw [ih g2]

/-- Closed instance of `process_hand_skip`: the hero is present but has no
hole cards (the shape the stub parser actually produces), so the hand is
skipped and drops out of any session it appears in. -/
theorem process_hand_skip_witness :
    process_hand
        { hand_id := "s1"
          date := "d"
          hero := "Hero"
          players := [("Hero", ⟨"Hero", []⟩)]
          board := []
          rake := 0
          total_pot := 0
          results := [] }
        { mc_iters := 1, seed := none, ev_before_rake := false } 7 =
      (some none, 7) ∧
    ∀ (pre post : List Hand) (g0 : RState),
      sessionRows (pre ++
          { hand_id := "s1"
            date := "d"
            hero := "Hero"
            players := [("Hero", ⟨"Hero", []⟩)]
            board := []
            rake := 0
            total_pot := 0
            results := [] } :: post)
          { mc_iters := 1, seed := none, ev_before_rake := false } g0 =
        sessionRows (pre ++ post)
          { mc_iters := 1, seed := none, ev_before_rake := false } g0 :=
  process_hand_skip
    { hand_id := "s1"
      date := "d"
      hero := "Hero"
      players := [("Hero", ⟨"Hero", []⟩)]
      board := []
      rake := 0
      total_pot := 0
      results := [] }
    { mc_iters := 1, seed := none, ev_before_rake := false } 7
    (Or.inr (Or.inr (Or.inl ⟨⟨"Hero", []⟩, by decide, rfl⟩)))

/-- C5 counterexample: a hero whose hole cards are only partially known (one
card instead of two — "not fully known" in the spec's sense) is NOT skipped:
the code only tests for an empty card list, so it computes an equity and
produces an EV row for this hand. -/
theorem process_hand_partial_cards_not_skipped :
    process_hand
        { hand_id := "h1"
          date := "d"
          hero := "Hero"
          players := [("Hero", ⟨"Hero", ["Ah"]⟩), ("V", ⟨"V", ["Qs", "Qc"]⟩)]
          board := ["2h", "3d", "9c", "Jd", "Tc"]
          rake := 0
          total_pot := 0
          results := [] }
        { mc_iters := 1, seed := none, ev_before_rake := false } 0 =
      (some (some
        { hand_id := "h1"
          date := "d"
          hero := "Hero"
          equity := 1
          eligible_pot := 0
          hero_invested := 0
          ev_contrib := 0
          hero_net := 0 }), 0) ∧
    (some (some
      { hand_id := "h1"
        date := "d"
        hero := "Hero"
        equity := 1
        eligible_pot := 0
        hero_invested := 0
        ev_contrib := 0
        hero_net := 0 }) : Option (Option Row)) ≠ some none := by
  constructor
  · have hmc : monte_carlo_equity ["Ah"] ["Qs", "Qc"]
        ["2h", "3d", "9c", "Jd", "Tc"] 1 none 0 = (some 1, 2, 0) := by
      rw [monte_carlo_equity_eq_of_mcLoop ["Ah"] ["Qs", "Qc"]
        ["2h", "3d", "9c", "Jd", "Tc"] 1 none 0 1 0 2 0 (by decide) (by decide)]
      norm_num
    rw [process_hand_eval _ _ _ ⟨"Hero", ["Ah"]⟩ ⟨"V", ["Qs", "Qc"]⟩ 1 2 0
      (by decide) (by decide) (by decide) (by decide) hmc]
    norm_num [Row.mk.injEq]
  · simp

theorem foldl_add_eq_sum (rows : List Row) (f : Row → ℚ) :
    ∀ a : ℚ, rows.foldl (fun acc r => acc + f r) a = a + (rows.map f).sum := by
  induction rows with
  | nil => intro a; simp
  | cons r rows ih =>
    intro a
    simp only [List.foldl_cons, List.map_cons, List.sum_cons, ih]
    ring

theorem process_hand_qualifies (hand : Hand) (args : Args) (g : RState)
    (r? : Option Row) (g2 : RState)
    (h : process_hand hand args g = (some r?, g2)) :
    r?.isSome = qualifies hand := by
  rcases hlk : List.lookup hand.hero hand.players with _ | hero
  · simp only [process_hand, hlk, Prod.mk.injEq, Option.some.injEq] at h
    rw [← h.1]
    simp [qualifies, hlk]
  · rcases hf : (hand.players.find? (fun kv => kv.1 != hand.hero)).map
        Prod.snd with _ | villain
    · simp only [process_hand, hlk, hf, Prod.mk.injEq, Option.some.injEq] at h
      rw [← h.1]
      simp [qualifies, hlk, hf]
    · cases hie : (hero.cards.isEmpty || villain.cards.isEmpty)
      · rcases hmc : monte_carlo_equity hero.cards villain.cards hand.board
            args.mc_iters args.seed g with ⟨eq?, cc, g3⟩
        rcases eq? with _ | q
        · simp only [process_hand, hlk, hf, hie, Bool.false_eq_true,
            if_false, hmc, Prod.mk.injEq] at h
          exact absurd h.1 (by simp)
        · simp only [process_hand, hlk, hf, hie, Bool.false_eq_true,
            if_false, hmc, Prod.mk.injEq, Option.some.injEq] at h
          rw [← h.1]
          simp only [Option.isSome_some, qualifies, hlk, hf]
          rw [← Bool.not_or, hie]
          rfl
      · simp only [process_hand, hlk, hf, hie, if_true,
          Prod.mk.injEq, Option.some.injEq] at h
        rw [← h.1]
        simp only [Option.isSome_none, qualifies, hlk, hf]
        rw [← Bool.not_or, hie]
        rfl

theorem sessionRows_struct :
    ∀ (hands : List Hand) (args : Args) (g gf : RState) (rows : List Row),
      sessionRows hands args g = (some rows, gf) →
      rows = specSessionRows hands args g ∧
      rows.length = (hands.filter qualifies).length := by
  intro hands
  induction hands with
  | nil =>
    intro args g gf rows h
    simp only [sessionRows, Prod.mk.injEq, Option.some.injEq] at h
    rw [← h.1]
    simp [specSessionRows]
  | cons hd hs ih =>
    intro args g gf rows h
    rcases hp : process_hand hd args g with ⟨r?, g2⟩
    rcases r? with _ | r?
    · simp only [sessionRows, hp] at h
      simp at h
    · rcases hs2 : sessionRows hs args g2 with ⟨rr, g3⟩
      rcases rr with _ | rows2
      · simp only [sessionRows, hp, hs2] at h
        simp at h
      · have hq := process_hand_qualifies hd args g r? g2 hp
        obtain ⟨ih1, ih2⟩ := ih args g2 g3 rows2 hs2
        rcases r? with _ | r
        · simp only [sessionRows, hp, hs2, Prod.mk.injEq,
            Option.some.injEq] at h
          rw [← h.1]
          constructor
          · simp only [specSessionRows, hp]
            exact ih1
          · rw [List.filter_cons, ← hq]
            simp only [Option.isSome_none, Bool.false_eq_true, if_false]
            exact ih2
        · simp only [sessionRows, hp, hs2, Prod.mk.injEq,
            Option.some.injEq] at h
          rw [← h.1]
          constructor
          · simp only [specSessionRows, hp]
            rw [ih1]
          · rw [List.filter_cons, ← hq]
            simp only [Option.isSome_some, if_true]
            simp [ih2]

/-- C6: whenever the per-hand loop of `main` completes (no hand raised), the
collected rows are exactly the rows of the qualifying hands, in input order
(`specSessionRows`, the spec-shaped recursion, with one row per hand passing
the qualification test), and the printed totals satisfy
`netTotal = Σ heroNet`, `evTotal = Σ evContribution` and
`diff = evTotal - netTotal` over those rows. -/
theorem session_aggregation (hands : List Hand) (args : Args) (g gf : RState)
    (rows : List Row) (h : sessionRows hands args g = (some rows, gf)) :
    net_total rows = (rows.map Row.hero_net).sum ∧
    ev_total rows = (rows.map Row.ev_contrib).sum ∧
    diff_total rows = ev_total rows - net_total rows ∧
    rows = specSessionRows hands args g ∧
    rows.length = (hands.filter qualifies).length := by
  obtain ⟨h1, h2⟩ := sessionRows_struct hands args g gf rows h
  refine ⟨?_, ?_, rfl, h1, h2⟩
  · rw [net_total, foldl_add_eq_sum, zero_add]
  · rw [ev_total, foldl_add_eq_sum, zero_add]

/-- Closed instance of `session_aggregation`: a session of two qualifying
hands whose rows have `heroNet = [10, -20]` and
`evContribution = [9.5, -5]`, giving `netTotal = -10`, `evTotal = 4.5`,
`diff = 14.5`. -/
theorem session_aggregation_witness :
    sessionRows
        [{ hand_id := "w1"
           date := "d"
           hero := "Hero"
           players := [("Hero", ⟨"Hero", ["Ah", "Kd"]⟩),
                       ("V", ⟨"V", ["Qs", "Qc"]⟩)]
           board := ["2h", "3d", "9c", "Jd", "Tc"]
           rake := 0
           total_pot := 19
           results := [("Hero", 10)] },
         { hand_id := "w2"
           date := "d"
           hero := "Hero"
           players := [("Hero", ⟨"Hero", ["4h", "2c"]⟩),
                       ("V", ⟨"V", ["As", "Ac"]⟩)]
           board := ["5d", "6d", "7d", "8d", "9d"]
           rake := 0
           total_pot := 10
           results := [("Hero", -20)] }]
        { mc_iters := 1, seed := none, ev_before_rake := false } 0 =
      (some
        [{ hand_id := "w1"
           date := "d"
           hero := "Hero"
           equity := 1
           eligible_pot := 19
           hero_invested := 19 / 2
           ev_contrib := 19 / 2
           hero_net := 10 },
         { hand_id := "w2"
           date := "d"
           hero := "Hero"
           equity := 0
           eligible_pot := 10
           hero_invested := 5
           ev_contrib := -5
           hero_net := -20 }], 0) ∧
    net_total
        [{ hand_id := "w1"
           date := "d"
           hero := "Hero"
           equity := 1
           eligible_pot := 19
           hero_invested := 19 / 2
           ev_contrib := 19 / 2
           hero_net := 10 },
         { hand_id := "w2"
           date := "d"
           hero := "Hero"
           equity := 0
           eligible_pot := 10
           hero_invested := 5
           ev_contrib := -5
           hero_net := -20 }] = -10 ∧
    ev_total
        [{ hand_id := "w1"
           date := "d"
           hero := "Hero"
           equity := 1
           eligible_pot := 19
           hero_invested := 19 / 2
           ev_contrib := 19 / 2
           hero_net := 10 },
         { hand_id := "w2"
           date := "d"
           hero := "Hero"
           equity := 0
           eligible_pot := 10
           hero_invested := 5
           ev_contrib := -5
           hero_net := -20 }] = 9 / 2 ∧
    diff_total
        [{ hand_id := "w1"
           date := "d"
           hero := "Hero"
           equity := 1
           eligible_pot := 19
           hero_invested := 19 / 2
           ev_contrib := 19 / 2
           hero_net := 10 },
         { hand_id := "w2"
           date := "d"
           hero := "Hero"
           equity := 0
           eligible_pot := 10
           hero_invested := 5
           ev_contrib := -5
           hero_net := -20 }] = 29 / 2 ∧
    [{ hand_id := "w1"
       date := "d"
       hero := "Hero"
       equity := 1
       eligible_pot := 19
       hero_invested := 19 / 2
       ev_contrib := 19 / 2
       hero_net := 10 },
     { hand_id := "w2"
       date := "d"
       hero := "Hero"
       equity := 0
       eligible_pot := 10
       hero_invested := 5
       ev_contrib := -5
       hero_net := -20 }] =
      specSessionRows
        [{ hand_id := "w1"
           date := "d"
           hero := "Hero"
           players := [("Hero", ⟨"Hero", ["Ah", "Kd"]⟩),
                       ("V", ⟨"V", ["Qs", "Qc"]⟩)]
           board := ["2h", "3d", "9c", "Jd", "Tc"]
           rake := 0
           total_pot := 19
           results := [("Hero", 10)] },
         { hand_id := "w2"
           date := "d"
           hero := "Hero"
           players := [("Hero", ⟨"Hero", ["4h", "2c"]⟩),
                       ("V", ⟨"V", ["As", "Ac"]⟩)]
           board := ["5d", "6d", "7d", "8d", "9d"]
           rake := 0
           total_pot := 10
           results := [("Hero", -20)] }]
        { mc_iters := 1, seed := none, ev_before_rake := false } 0 := by
  have hmc1 : monte_carlo_equity ["Ah", "Kd"] ["Qs", "Qc"]
      ["2h", "3d", "9c", "Jd", "Tc"] 1 none 0 = (some 1, 2, 0) := by
    rw [monte_carlo_equity_eq_of_mcLoop ["Ah", "Kd"] ["Qs", "Qc"]
      ["2h", "3d", "9c", "Jd", "Tc"] 1 none 0 1 0 2 0 (by decide) (by decide)]
    norm_num
  have hmc2 : monte_carlo_equity ["4h", "2c"] ["As", "Ac"]
      ["5d", "6d", "7d", "8d", "9d"] 1 none 0 = (some 0, 2, 0) := by
    rw [monte_carlo_equity_eq_of_mcLoop ["4h", "2c"] ["As", "Ac"]
      ["5d", "6d", "7d", "8d", "9d"] 1 none 0 0 0 2 0 (by decide) (by decide)]
    norm_num
  have hph1 : process_hand
      { hand_id := "w1"
        date := "d"
        hero := "Hero"
        players := [("Hero", ⟨"Hero", ["Ah", "Kd"]⟩),
                    ("V", ⟨"V", ["Qs", "Qc"]⟩)]
        board := ["2h", "3d", "9c", "Jd", "Tc"]
        rake := 0
        total_pot := 19
        results := [("Hero", 10)] }
      { mc_iters := 1, seed := none, ev_before_rake := false } 0 =
      (some (some
        { hand_id := "w1"
          date := "d"
          hero := "Hero"
          equity := 1
          eligible_pot := 19
          hero_invested := 19 / 2
          ev_contrib := 19 / 2
          hero_net := 10 }), 0) := by
    rw [process_hand_eval _ _ _ ⟨"Hero", ["Ah", "Kd"]⟩ ⟨"V", ["Qs", "Qc"]⟩
      1 2 0 (by decide) (by decide) (by decide) (by decide) hmc1]
    norm_num [Row.mk.injEq]
  have hph2 : process_hand
      { hand_id := "w2"
        date := "d"
        hero := "Hero"
        players := [("Hero", ⟨"Hero", ["4h", "2c"]⟩),
                    ("V", ⟨"V", ["As", "Ac"]⟩)]
        board := ["5d", "6d", "7d", "8d", "9d"]
        rake := 0
        total_pot := 10
        results := [("Hero", -20)] }
      { mc_iters := 1, seed := none, ev_before_rake := false } 0 =
      (some (some
        { hand_id := "w2"
          date := "d"
          hero := "Hero"
          equity := 0
          eligible_pot := 10
          hero_invested := 5
          ev_contrib := -5
          hero_net := -20 }), 0) := by
    rw [process_hand_eval _ _ _ ⟨"Hero", ["4h", "2c"]⟩ ⟨"V", ["As", "Ac"]⟩
      0 2 0 (by decide) (by decide) (by decide) (by decide) hmc2]
    norm_num [Row.mk.injEq]
  have hsr : sessionRows
      [{ hand_id := "w1"
         date := "d"
         hero := "Hero"
         players := [("Hero", ⟨"Hero", ["Ah", "Kd"]⟩),
                     ("V", ⟨"V", ["Qs", "Qc"]⟩)]
         board := ["2h", "3d", "9c", "Jd", "Tc"]
         rake := 0
         total_pot := 19
         results := [("Hero", 10)] },
       { hand_id := "w2"
         date := "d"
         hero := "Hero"
         players := [("Hero", ⟨"Hero", ["4h", "2c"]⟩),
                     ("V", ⟨"V", ["As", "Ac"]⟩)]
         board := ["5d", "6d", "7d", "8d", "9d"]
         rake := 0
         total_pot := 10
         results := [("Hero", -20)] }]
      { mc_iters := 1, seed := none, ev_before_rake := false } 0 =
      (some
        [{ hand_id := "w1"
           date := "d"
           hero := "Hero"
           equity := 1
           eligible_pot := 19
           hero_invested := 19 / 2
           ev_contrib := 19 / 2
           hero_net := 10 },
         { hand_id := "w2"
           date := "d"
           hero := "Hero"
           equity := 0
           eligible_pot := 10
           hero_invested := 5
           ev_contrib := -5
           hero_net := -20 }], 0) := by
    simp only [sessionRows, hph1, hph2]
  refine ⟨hsr, ?_, ?_, ?_,
    (session_aggregation _ _ _ _ _ hsr).2.2.2.1⟩
  · norm_num [net_total, List.foldl_cons, List.foldl_nil]
  · norm_num [ev_total, List.foldl_cons, List.foldl_nil]
  · norm_num [diff_total, ev_total, net_total, List.foldl_cons, List.foldl_nil]

end AllinEV
